import Mathlib

/-!
Shallow embedding of the anime-scrobbler reconciliation-and-dedup pipeline
(src/app/core/controller.py and src/app/data/model.py).

External collaborators (AniList, Plex, Nyaa, Transmission, storage, the
tinydb-backed AppStore) are modelled as an explicit environment of functions.
A call that may raise a Python exception is modelled with `Option` (`none`
means the call raised); stateful processing threads an explicit state holding
the persistent store contents and a trace of the externally visible actions
(log lines, store lookups and upserts, download-client, downloader and
file-mover invocations).
-/

/-- AniList media title (anilist MediaEntry.media.title). -/
structure MediaTitle where
  userPreferred : String
deriving DecidableEq

/-- AniList media payload: release status string such as NOT_YET_RELEASED. -/
structure Media where
  status : String
  title : MediaTitle
deriving DecidableEq

/-- AniList tracked entry: the user's personal status plus the media payload
(anilist MediaEntry as used by controller.py). -/
structure MediaEntry where
  status : String
  media : Media
deriving DecidableEq

/-- Plex library show (plexapi Show as used by model.py); only its identity
matters to the pipeline. -/
structure Show where
  title : String
deriving DecidableEq

/-- Attributes parsed from a torrent name (nyaa AnimeInfo); controller.py only
tests it against None and reads anime_title. -/
structure AnimeInfo where
  anime_title : String
deriving DecidableEq

/-- Nyaa torrent search result (nyaa TorrentInfo) restricted to the fields
controller.py reads or writes: name (the dedup key), download_url, the optional
anime_info back-reference and the mutable is_queued flag. -/
structure TorrentInfo where
  name : String
  download_url : String
  anime_info : Option AnimeInfo
  is_queued : Bool
deriving DecidableEq

/-- Modelled from the spec: a PersistedRecord of the PersistentStore (AppStore);
the record schema is opaque beyond being keyed by the candidate name, so only
the name is kept. -/
structure StoreRecord where
  name : String
deriving DecidableEq

/-- The contents of the tinydb-backed AppStore, as a list of records. -/
abbrev AppStore := List StoreRecord

/-- Modelled from the spec: `PersistentStore.find` / AppStore.search with the
query `where('name') == n`, returning every record whose name equals n. -/
def store_search (store : AppStore) (n : String) : List StoreRecord :=
  store.filter (fun r => r.name == n)

/-- Modelled from the spec: `PersistentStore.upsert` / AppStore.save_or_update,
an idempotent write keyed by record name: replace the records holding that
name, or append the record when none holds it. -/
def save_or_update (store : AppStore) (x : StoreRecord) : AppStore :=
  if store.any (fun r => r.name == x.name) then
    store.map (fun r => if r.name == x.name then x else r)
  else
    store ++ [x]

/-- Externally visible actions of the decision phase: log lines, the store
lookup, the DownloadClient (transmission add_torrent_magnet) call carrying the
magnet url, the direct-download (nyaa download_torrent_file) call, the
FileMover (StorageUtil.copy_or_move_file) call and the store upsert, the last
three carrying the candidate name. -/
inductive Event where
  | logInfo : Event
  | logError : Event
  | findRec : String → Event
  | addMagnet : String → Event
  | download : String → Event
  | move : String → Event
  | upsert : String → Event
deriving DecidableEq

/-- An event that mutates the world outside the log: a DownloadClient call, a
direct download, a FileMover call or a store upsert. -/
def mutatingEvent : Event → Bool
  | Event.addMagnet _ => true
  | Event.download _ => true
  | Event.move _ => true
  | Event.upsert _ => true
  | _ => false

/-- Processing state threaded through the decision phase: the persistent store
contents and the trace of events so far. -/
structure PState where
  store : AppStore
  events : List Event
deriving DecidableEq

/-- The external collaborators of AppController, as pure functions. A value of
`none` from a fallible field models a raised Python exception at that call. -/
structure Env where
  anilistFetch : Option (List MediaEntry)
  plexFindAllByTitle : MediaEntry → List Show
  nyaaSearchMissing : MediaEntry → List TorrentInfo
  nyaaSearchShows : Show → MediaEntry → List TorrentInfo
  transmissionAddMagnet : String → Option Bool
  nyaaDownload : TorrentInfo → Option Bool
  storageCopyOrMove : TorrentInfo → Bool

/-- The DownloadableQueue dataclass of src/app/data/model.py: three parallel
sequences built by the Reconciler. -/
structure DownloadableQueue where
  shows_found_in_plex : List Show
  shows_missing_in_plex : List MediaEntry
  show_media_entry_in_plex : List MediaEntry
deriving DecidableEq

/-- DownloadableQueue.contains_items of model.py: Python truthiness of
`a or b or c`, true exactly when at least one sequence is non-empty. -/
def DownloadableQueue.contains_items (q : DownloadableQueue) : Bool :=
  !q.shows_found_in_plex.isEmpty || !q.shows_missing_in_plex.isEmpty ||
    !q.show_media_entry_in_plex.isEmpty

/-- The loop of AppController.find_plex_show over the media entries,
accumulating (found shows, missing entries, matched entries, queried entries).
The fourth component instruments which entries were sent to the Plex lookup.
The missing accumulator models the spec's LibrarySource contract: the
missing-item callback is invoked with the entry exactly when the lookup
returns no items. -/
def find_plex_show_loop (env : Env) (entries : List MediaEntry)
    (found : List Show) (missing matched queried : List MediaEntry) :
    List Show × List MediaEntry × List MediaEntry × List MediaEntry :=
  match entries with
  | [] => (found, missing, matched, queried)
  | e :: rest =>
    if e.media.status != "NOT_YET_RELEASED" then
      if e.status != "COMPLETED" then
        let shows := env.plexFindAllByTitle e
        if shows.isEmpty then
          find_plex_show_loop env rest found (missing ++ [e]) matched
            (queried ++ [e])
        else
          find_plex_show_loop env rest (found ++ shows) missing
            (matched ++ [e]) (queried ++ [e])
      else
        find_plex_show_loop env rest found missing matched queried
    else
      find_plex_show_loop env rest found missing matched queried

/-- AppController.find_plex_show: builds the DownloadableQueue from the three
accumulators; also returns the instrumented list of entries that were actually
queried against Plex. -/
def find_plex_show (env : Env) (entries : List MediaEntry) :
    DownloadableQueue × List MediaEntry :=
  match find_plex_show_loop env entries [] [] [] [] with
  | (found, missing, matched, queried) =>
    ({ shows_found_in_plex := found,
       shows_missing_in_plex := missing,
       show_media_entry_in_plex := matched }, queried)

/-- The first loop of AppController.search_nyaa_for_shows: search nyaa for each
entry missing in Plex, accumulating only non-empty result lists. -/
def search_missing_loop (env : Env) (ms : List MediaEntry)
    (acc : List TorrentInfo) : List TorrentInfo :=
  match ms with
  | [] => acc
  | m :: rest =>
    let r := env.nyaaSearchMissing m
    if r.length > 0 then search_missing_loop env rest (acc ++ r)
    else search_missing_loop env rest acc

/-- The second loop of AppController.search_nyaa_for_shows: search nyaa for
each (show, entry) pair of zip(shows_found_in_plex, show_media_entry_in_plex),
accumulating only non-empty result lists. -/
def search_found_loop (env : Env) (ps : List (Show × MediaEntry))
    (acc : List TorrentInfo) : List TorrentInfo :=
  match ps with
  | [] => acc
  | p :: rest =>
    let r := env.nyaaSearchShows p.1 p.2
    if r.length > 0 then search_found_loop env rest (acc ++ r)
    else search_found_loop env rest acc

/-- AppController.search_nyaa_for_shows: runs both loops and returns
torrent_search_result_list + torrent_search_result_list_for_missing_shows,
the found-group results followed by the missing-group results. -/
def search_nyaa_for_shows (env : Env) (q : DownloadableQueue) :
    List TorrentInfo :=
  let missingResults := search_missing_loop env q.shows_missing_in_plex []
  let foundResults :=
    search_found_loop env
      (q.shows_found_in_plex.zip q.show_media_entry_in_plex) []
  foundResults ++ missingResults

/-- AppController.__find_downloadable_torrents: the store lookup
app_store.search(where('name') == torrent_info.name). -/
def find_downloadable_torrents (store : AppStore) (t : TorrentInfo) :
    List StoreRecord :=
  store_search store t.name

/-- AppController.__move_torrent_to_monitored_directory: call the FileMover
and, inside the same try block, upsert the record; a raise from the move is
caught locally and logged as an error (and the upsert of this function is then
skipped). -/
def move_torrent_to_monitored_directory (env : Env) (s : PState)
    (t : TorrentInfo) : PState :=
  if env.storageCopyOrMove t then
    { store := save_or_update s.store { name := t.name },
      events := s.events ++ [Event.move t.name, Event.upsert t.name] }
  else
    { store := s.store,
      events := s.events ++ [Event.move t.name, Event.logError] }

/-- AppController.__download_torrent_file: log, attempt the direct download
(`none` = the call raised, propagating), and on success upsert the record,
log, then invoke the move step; on a failed download only log. -/
def download_torrent_file (env : Env) (s : PState) (t : TorrentInfo) :
    PState × Option Unit :=
  let s1 : PState :=
    { s with events := s.events ++ [Event.logInfo, Event.download t.name] }
  match env.nyaaDownload t with
  | none => (s1, none)
  | some true =>
    let s2 : PState :=
      { store := save_or_update s1.store { name := t.name },
        events := s1.events ++ [Event.upsert t.name, Event.logInfo] }
    (move_torrent_to_monitored_directory env s2 t, some ())
  | some false =>
    ({ s1 with events := s1.events ++ [Event.logInfo] }, some ())

/-- AppController.__queue_downloaded_torrent_file: call the DownloadClient
(`none` = the call raised, propagating), unconditionally assign the returned
boolean to is_queued, and upsert the record only on success. Returns the
success flag together with the updated torrent. -/
def queue_downloaded_torrent_file (env : Env) (s : PState) (t : TorrentInfo) :
    PState × Option (Bool × TorrentInfo) :=
  let s1 : PState :=
    { s with events := s.events ++ [Event.addMagnet t.download_url] }
  match env.transmissionAddMagnet t.download_url with
  | none => (s1, none)
  | some success =>
    let t2 : TorrentInfo := { t with is_queued := success }
    if success then
      ({ store := save_or_update s1.store { name := t2.name },
         events := s1.events ++ [Event.upsert t2.name] }, some (success, t2))
    else
      (s1, some (success, t2))

/-- The body of the per-candidate loop of AppController.start_application:
skip and log when anime_info is None; otherwise look the name up in the store;
when no record exists, try the magnet enqueue and fall back to the direct
download when the enqueue reports failure; when a record exists, skip and log.
A `none` result models a Python exception escaping this candidate. -/
def process_candidate (env : Env) (s : PState) (t : TorrentInfo) :
    PState × Option Unit :=
  match t.anime_info with
  | none => ({ s with events := s.events ++ [Event.logInfo] }, some ())
  | some _ =>
    let downloaded := find_downloadable_torrents s.store t
    let s1 : PState := { s with events := s.events ++ [Event.findRec t.name] }
    if downloaded.length < 1 then
      match queue_downloaded_torrent_file env s1 t with
      | (s2, none) => (s2, none)
      | (s2, some (queued, t2)) =>
        if !queued then download_torrent_file env s2 t2
        else (s2, some ())
    else
      ({ s1 with events := s1.events ++ [Event.logInfo] }, some ())

/-- The per-candidate for-loop of AppController.start_application: candidates
are processed in order; an exception escaping one candidate (a `none` result)
aborts the loop, carrying the state reached so far. -/
def process_candidates (env : Env) (s : PState) (ts : List TorrentInfo) :
    PState × Option Unit :=
  match ts with
  | [] => (s, some ())
  | t :: rest =>
    match process_candidate env s t with
    | (s1, none) => (s1, none)
    | (s1, some _) => process_candidates env s1 rest

/-- The try-block body of AppController.start_application: fetch the anime
list (`none` = the fetch raised), and when it is non-empty reconcile against
Plex, gate on contains_items, search nyaa, and when the search produced
results run the decision phase over them. -/
def run_body (env : Env) (store0 : AppStore) : PState × Option Unit :=
  match env.anilistFetch with
  | none => ({ store := store0, events := [] }, none)
  | some animeList =>
    if !animeList.isEmpty then
      let dq := (find_plex_show env animeList).1
      if dq.contains_items then
        let searchResults := search_nyaa_for_shows env dq
        if searchResults.length > 0 then
          process_candidates env { store := store0, events := [] }
            searchResults
        else
          ({ store := store0, events := [Event.logInfo] }, some ())
      else
        ({ store := store0, events := [] }, some ())
    else
      ({ store := store0, events := [] }, some ())

/-- AppController.start_application: the whole run body inside the single
top-level try/except; an escaping exception is absorbed and logged as an
error, and the method returns normally either way. -/
def start_application (env : Env) (store0 : AppStore) : PState :=
  match run_body env store0 with
  | (s, some _) => s
  | (s, none) => { s with events := s.events ++ [Event.logError] }

/-! Concrete fixtures used to evaluate the embedding on specific inputs. -/

/-- An environment where every collaborator succeeds trivially: empty
results, magnet enqueue reports failure=false... the neutral base the other
fixtures override. -/
def baseEnv : Env :=
  { anilistFetch := some [],
    plexFindAllByTitle := fun _ => [],
    nyaaSearchMissing := fun _ => [],
    nyaaSearchShows := fun _ _ => [],
    transmissionAddMagnet := fun _ => some false,
    nyaaDownload := fun _ => some false,
    storageCopyOrMove := fun _ => true }

/-- A concrete torrent candidate named A carrying anime attributes. -/
def tA : TorrentInfo :=
  { name := "A", download_url := "uA",
    anime_info := some { anime_title := "A" }, is_queued := false }

/-- A concrete torrent candidate named B carrying anime attributes. -/
def tB : TorrentInfo :=
  { name := "B", download_url := "uB",
    anime_info := some { anime_title := "B" }, is_queued := false }

/-- The empty processing state: no records, no events. -/
def s0 : PState := { store := [], events := [] }

/-- A processing state whose store already holds a record named A. -/
def sA : PState := { store := [{ name := "A" }], events := [] }

/-- A releasing entry the user is currently watching. -/
def entC : MediaEntry :=
  { status := "CURRENT",
    media := { status := "RELEASING", title := { userPreferred := "C" } } }

/-- An entry whose media is not yet released. -/
def entNYR : MediaEntry :=
  { status := "CURRENT",
    media := { status := "NOT_YET_RELEASED",
               title := { userPreferred := "N" } } }

/-- An environment whose Plex lookup returns two shows for every entry. -/
def envPlexTwo : Env :=
  { baseEnv with
    plexFindAllByTitle := fun _ => [{ title := "C1" }, { title := "C2" }] }

/-- An environment whose DownloadClient call raises on every magnet. -/
def envMagnetRaise : Env :=
  { baseEnv with transmissionAddMagnet := fun _ => none }

/-- An environment where the direct download succeeds (and the move
succeeds, as in baseEnv). -/
def envDownloadOk : Env :=
  { baseEnv with nyaaDownload := fun _ => some true }

/-- An environment where the direct download succeeds but the FileMover
raises. -/
def envMoveFail : Env :=
  { baseEnv with nyaaDownload := fun _ => some true,
                 storageCopyOrMove := fun _ => false }

/-- An environment whose AniList fetch raises. -/
def envFetchRaise : Env := { baseEnv with anilistFetch := none }

/-- A torrent produced by the found-group search. -/
def tF : TorrentInfo :=
  { name := "F", download_url := "uF",
    anime_info := some { anime_title := "F" }, is_queued := false }

/-- A torrent produced by the missing-group search. -/
def tM : TorrentInfo :=
  { name := "M", download_url := "uM",
    anime_info := some { anime_title := "M" }, is_queued := false }

/-- An environment whose missing-search yields tM and whose found-search
yields tF. -/
def envSearchPair : Env :=
  { baseEnv with
    nyaaSearchMissing := fun _ => [tM],
    nyaaSearchShows := fun _ _ => [tF] }

/-- A queue holding one found (show, entry) pair and one missing entry. -/
def qPair : DownloadableQueue :=
  { shows_found_in_plex := [{ title := "F" }],
    shows_missing_in_plex := [entC],
    show_media_entry_in_plex := [entC] }

/-! Helper lemmas about the store operations. -/

/-- The store lookup finds a record exactly when one with that name is in
the store. -/
theorem store_search_pos_iff (store : AppStore) (n : String) :
    0 < (store_search store n).length ↔ ∃ r ∈ store, r.name = n := by
  rw [List.length_pos_iff_exists_mem]
  constructor
  · rintro ⟨r, hr⟩
    rw [store_search, List.mem_filter] at hr
    exact ⟨r, hr.1, by simpa using hr.2⟩
  · rintro ⟨r, hr, hn⟩
    refine ⟨r, ?_⟩
    rw [store_search, List.mem_filter]
    exact ⟨hr, by simpa using hn⟩

/-- After an upsert, some record holds the upserted name. -/
theorem save_or_update_mem_self (store : AppStore) (x : StoreRecord) :
    ∃ r ∈ save_or_update store x, r.name = x.name := by
  unfold save_or_update
  by_cases h : store.any (fun r => r.name == x.name)
  · rw [if_pos h]
    obtain ⟨r, hr, hrx⟩ := List.any_eq_true.mp h
    exact ⟨x, List.mem_map.mpr ⟨r, hr, by simp [hrx]⟩, rfl⟩
  · rw [if_neg h]
    exact ⟨x, List.mem_append_right _ (by simp), rfl⟩

/-- An upsert never removes a name from the store. -/
theorem save_or_update_keeps (store : AppStore) (x : StoreRecord) (n : String)
    (h : ∃ r ∈ store, r.name = n) :
    ∃ r ∈ save_or_update store x, r.name = n := by
  obtain ⟨r, hr, hn⟩ := h
  unfold save_or_update
  by_cases hc : store.any (fun q => q.name == x.name)
  · rw [if_pos hc]
    by_cases hrx : r.name = x.name
    · exact ⟨x, List.mem_map.mpr ⟨r, hr, by simp [hrx]⟩, hrx.symm.trans hn⟩
    · exact ⟨r, List.mem_map.mpr ⟨r, hr, by simp [hrx]⟩, hn⟩
  · rw [if_neg hc]
    exact ⟨r, List.mem_append_left _ hr, hn⟩

/-- The move step never removes a name from the store. -/
theorem move_torrent_keeps (env : Env) (s : PState) (t : TorrentInfo)
    (n : String) (h : ∃ r ∈ s.store, r.name = n) :
    ∃ r ∈ (move_torrent_to_monitored_directory env s t).store, r.name = n := by
  unfold move_torrent_to_monitored_directory
  by_cases hc : env.storageCopyOrMove t
  · rw [if_pos hc]
    exact save_or_update_keeps _ _ _ h
  · rw [if_neg hc]
    exact h

/-- The direct-download step never removes a name from the store. -/
theorem download_torrent_file_keeps (env : Env) (s : PState)
    (t : TorrentInfo) (n : String) (h : ∃ r ∈ s.store, r.name = n) :
    ∃ r ∈ (download_torrent_file env s t).1.store, r.name = n := by
  unfold download_torrent_file
  rcases hd : env.nyaaDownload t with _ | b
  · exact h
  · cases b
    · exact h
    · exact move_torrent_keeps env _ t n (save_or_update_keeps _ _ _ h)

/-- The enqueue step never removes a name from the store. -/
theorem queue_torrent_keeps (env : Env) (s : PState) (t : TorrentInfo)
    (n : String) (h : ∃ r ∈ s.store, r.name = n) :
    ∃ r ∈ (queue_downloaded_torrent_file env s t).1.store, r.name = n := by
  unfold queue_downloaded_torrent_file
  rcases hm : env.transmissionAddMagnet t.download_url with _ | b
  · exact h
  · cases b
    · exact h
    · exact save_or_update_keeps _ _ _ h

/-! Claim theorems: data-model level. -/

/-- C9: the ReconciliationQueue emptiness test used as the Pipeline's gate is
truthy exactly when at least one of the found, missing, matched sequences is
non-empty. -/
theorem c9_contains_items_iff (q : DownloadableQueue) :
    q.contains_items = true ↔
      (q.shows_found_in_plex ≠ [] ∨ q.shows_missing_in_plex ≠ [] ∨
        q.show_media_entry_in_plex ≠ []) := by
  simp [DownloadableQueue.contains_items, List.isEmpty_iff, or_assoc]

/-- C10: after the enqueue attempt the candidate's queued flag equals the
boolean returned by the DownloadClient (also mutated to false on failure),
and the record upsert of this step happens exactly when the result is true. -/
theorem c10_queued_flag (env : Env) (s : PState) (t : TorrentInfo) (b : Bool)
    (h : env.transmissionAddMagnet t.download_url = some b) :
    (queue_downloaded_torrent_file env s t).2 =
      some (b, { t with is_queued := b }) ∧
    (queue_downloaded_torrent_file env s t).1.events =
      s.events ++ [Event.addMagnet t.download_url] ++
        (if b then [Event.upsert t.name] else []) ∧
    (queue_downloaded_torrent_file env s t).1.store =
      (if b then save_or_update s.store { name := t.name } else s.store) := by
  cases b <;> simp [queue_downloaded_torrent_file, h]

/-- Witness for C10 at a concrete input: baseEnv reports enqueue failure for
candidate tA, the flag is set to false and nothing is upserted. -/
theorem c10_queued_flag_witness :
    (queue_downloaded_torrent_file baseEnv s0 tA).2 =
      some (false, { tA with is_queued := false }) :=
  (c10_queued_flag baseEnv s0 tA false rfl).1

/-- C4 counterexample: with a succeeding direct download, the trace of the
fallback path upserts the record (index 2) before the FileMover is invoked
(index 4), so the relocation is not invoked before the upsert. -/
theorem c4_cex_upsert_precedes_move :
    (download_torrent_file envDownloadOk s0 tA).1.events =
      [Event.logInfo, Event.download "A", Event.upsert "A", Event.logInfo,
       Event.move "A", Event.upsert "A"] ∧
    (download_torrent_file envDownloadOk s0 tA).1.events.indexOf
        (Event.upsert "A") <
      (download_torrent_file envDownloadOk s0 tA).1.events.indexOf
        (Event.move "A") := by
  decide

/-- C4 amended: in the fallback path, after a successful direct download the
record is upserted first, then the FileMover relocation is invoked, and a
second upsert follows only a successful move (a failed move logs an error
instead); no exception escapes this step. -/
theorem c4_upsert_then_move (env : Env) (s : PState) (t : TorrentInfo)
    (hd : env.nyaaDownload t = some true) :
    (download_torrent_file env s t).1.events =
      s.events ++ [Event.logInfo, Event.download t.name, Event.upsert t.name,
        Event.logInfo, Event.move t.name] ++
        (if env.storageCopyOrMove t then [Event.upsert t.name]
         else [Event.logError]) ∧
    (download_torrent_file env s t).2 = some () := by
  by_cases hm : env.storageCopyOrMove t <;>
    simp [download_torrent_file, hd, move_torrent_to_monitored_directory, hm]

/-- Witness for C4 amended at a concrete input: candidate tA under
envDownloadOk. -/
theorem c4_upsert_then_move_witness :
    (download_torrent_file envDownloadOk s0 tA).2 = some () :=
  (c4_upsert_then_move envDownloadOk s0 tA rfl).2

/-- C6: when the direct download succeeds and the FileMover raises, an error
is logged, a record for the candidate name is nevertheless in the store
afterwards, and no exception escapes the step. -/
theorem c6_move_failure_keeps_record (env : Env) (s : PState)
    (t : TorrentInfo) (hd : env.nyaaDownload t = some true)
    (hm : env.storageCopyOrMove t = false) :
    Event.logError ∈ (download_torrent_file env s t).1.events ∧
    (∃ r ∈ (download_torrent_file env s t).1.store, r.name = t.name) ∧
    (download_torrent_file env s t).2 = some () := by
  refine ⟨?_, ?_, ?_⟩
  · simp [download_torrent_file, hd, move_torrent_to_monitored_directory, hm]
  · have h1 := save_or_update_mem_self s.store { name := t.name }
    simpa [download_torrent_file, hd, move_torrent_to_monitored_directory,
      hm] using h1
  · simp [download_torrent_file, hd]

/-- Witness for C6 at a concrete input: candidate tA under envMoveFail. -/
theorem c6_move_failure_keeps_record_witness :
    Event.logError ∈ (download_torrent_file envMoveFail s0 tA).1.events :=
  (c6_move_failure_keeps_record envMoveFail s0 tA rfl rfl).1

/-! Claim theorems: the search phase. -/

/-- Accumulating only non-empty missing-search results equals flat-mapping the
search over all missing entries. -/
theorem search_missing_loop_eq (env : Env) (ms : List MediaEntry)
    (acc : List TorrentInfo) :
    search_missing_loop env ms acc =
      acc ++ ms.flatMap env.nyaaSearchMissing := by
  induction ms generalizing acc with
  | nil => simp [search_missing_loop]
  | cons m rest ih =>
    rw [search_missing_loop]
    by_cases h : (env.nyaaSearchMissing m).length > 0
    · simp only [h, if_pos, ih]
      simp
    · have hempty : env.nyaaSearchMissing m = [] := by
        cases hm : env.nyaaSearchMissing m with
        | nil => rfl
        | cons a l => rw [hm] at h; simp at h
      simp only [h, if_neg, ih, not_false_iff]
      simp [hempty]

/-- Accumulating only non-empty found-search results equals flat-mapping the
search over all (show, entry) pairs. -/
theorem search_found_loop_eq (env : Env) (ps : List (Show × MediaEntry))
    (acc : List TorrentInfo) :
    search_found_loop env ps acc =
      acc ++ ps.flatMap (fun p => env.nyaaSearchShows p.1 p.2) := by
  induction ps generalizing acc with
  | nil => simp [search_found_loop]
  | cons p rest ih =>
    rw [search_found_loop]
    by_cases h : (env.nyaaSearchShows p.1 p.2).length > 0
    · simp only [h, if_pos, ih]
      simp
    · have hempty : env.nyaaSearchShows p.1 p.2 = [] := by
        cases hm : env.nyaaSearchShows p.1 p.2 with
        | nil => rfl
        | cons a l => rw [hm] at h; simp at h
      simp only [h, if_neg, ih, not_false_iff]
      simp [hempty]

/-- C5 counterexample: with one missing entry yielding tM and one found pair
yielding tF, the search phase returns the found-group result first, not the
missing-group result first as the claim states. -/
theorem c5_cex_found_group_first :
    search_nyaa_for_shows envSearchPair qPair = [tF, tM] ∧
      ([tF, tM] : List TorrentInfo) ≠ [tM, tF] := by
  decide

/-- C5 amended: the candidate list returned by the search phase is the
concatenation of the found-search results followed by the missing-search
results, each group in the order its searches were issued (the found group
over zip(found, matched)). -/
theorem c5_search_concat_order (env : Env) (q : DownloadableQueue) :
    search_nyaa_for_shows env q =
      (q.shows_found_in_plex.zip q.show_media_entry_in_plex).flatMap
        (fun p => env.nyaaSearchShows p.1 p.2) ++
      q.shows_missing_in_plex.flatMap env.nyaaSearchMissing := by
  rw [search_nyaa_for_shows]
  rw [search_missing_loop_eq, search_found_loop_eq]
  simp

/-! Claim theorems: the top-level boundary. -/

/-- C8: the run body sits inside a single failure boundary; the store reached
by the body is always returned, a raised error is logged and absorbed, and a
normal body result is returned unchanged, so nothing propagates to the
caller. -/
theorem c8_top_level_boundary (env : Env) (store0 : AppStore) :
    (start_application env store0).store = (run_body env store0).1.store ∧
    ((run_body env store0).2 = none →
      start_application env store0 =
        { store := (run_body env store0).1.store,
          events := (run_body env store0).1.events ++ [Event.logError] }) ∧
    (∀ u : Unit, (run_body env store0).2 = some u →
      start_application env store0 = (run_body env store0).1) := by
  rcases hrb : run_body env store0 with ⟨s, r⟩
  cases r <;> simp [start_application, hrb]

/-- Witness for C8 at a concrete input: a raising AniList fetch is absorbed
and logged. -/
theorem c8_top_level_boundary_witness :
    start_application envFetchRaise [] =
      { store := (run_body envFetchRaise []).1.store,
        events := (run_body envFetchRaise []).1.events ++ [Event.logError] } :=
  (c8_top_level_boundary envFetchRaise []).2.1 rfl

/-! Claim theorems: the Reconciler. -/

/-- Each loop step of the Reconciler appends at least as many shows to the
found accumulator as entries to the matched accumulator. -/
theorem find_plex_show_loop_le (env : Env) (entries : List MediaEntry)
    (found : List Show) (missing matched queried : List MediaEntry)
    (h : matched.length ≤ found.length) :
    (find_plex_show_loop env entries found missing matched
        queried).2.2.1.length ≤
      (find_plex_show_loop env entries found missing matched
        queried).1.length := by
  induction entries generalizing found missing matched queried with
  | nil => simpa [find_plex_show_loop] using h
  | cons e rest ih =>
    rw [find_plex_show_loop]
    by_cases h1 : e.media.status != "NOT_YET_RELEASED"
    · by_cases h2 : e.status != "COMPLETED"
      · simp only [h1, h2, if_pos]
        by_cases h3 : (env.plexFindAllByTitle e).isEmpty
        · simp only [h3, if_pos]
          exact ih found (missing ++ [e]) matched (queried ++ [e]) h
        · simp only [h3, if_neg, Bool.not_eq_true]
          refine ih (found ++ env.plexFindAllByTitle e) missing
            (matched ++ [e]) (queried ++ [e]) ?_
          have hpos : 0 < (env.plexFindAllByTitle e).length := by
            rcases hm : env.plexFindAllByTitle e with _ | ⟨a, l⟩
            · rw [hm] at h3; simp at h3
            · simp
          simp only [List.length_append, List.length_singleton]
          omega
      · simp only [h1, h2, if_pos, if_neg, Bool.not_eq_true]
        exact ih found missing matched queried h
    · simp only [h1, if_neg, Bool.not_eq_true]
      exact ih found missing matched queried h

/-- When every Plex lookup returns at most one show, each loop step appends
to found and matched in lockstep. -/
theorem find_plex_show_loop_eq_len (env : Env) (entries : List MediaEntry)
    (found : List Show) (missing matched queried : List MediaEntry)
    (hone : ∀ e, (env.plexFindAllByTitle e).length ≤ 1)
    (h : matched.length = found.length) :
    (find_plex_show_loop env entries found missing matched
        queried).2.2.1.length =
      (find_plex_show_loop env entries found missing matched
        queried).1.length := by
  induction entries generalizing found missing matched queried with
  | nil => simpa [find_plex_show_loop] using h
  | cons e rest ih =>
    rw [find_plex_show_loop]
    by_cases h1 : e.media.status != "NOT_YET_RELEASED"
    · by_cases h2 : e.status != "COMPLETED"
      · simp only [h1, h2, if_pos]
        by_cases h3 : (env.plexFindAllByTitle e).isEmpty
        · simp only [h3, if_pos]
          exact ih found (missing ++ [e]) matched (queried ++ [e]) h
        · simp only [h3, if_neg, Bool.not_eq_true]
          refine ih (found ++ env.plexFindAllByTitle e) missing
            (matched ++ [e]) (queried ++ [e]) ?_
          have hpos : 0 < (env.plexFindAllByTitle e).length := by
            rcases hm : env.plexFindAllByTitle e with _ | ⟨a, l⟩
            · rw [hm] at h3; simp at h3
            · simp
          have hle := hone e
          simp only [List.length_append, List.length_singleton]
          omega
      · simp only [h1, h2, if_pos, if_neg, Bool.not_eq_true]
        exact ih found missing matched queried h
    · simp only [h1, if_neg, Bool.not_eq_true]
      exact ih found missing matched queried h

/-- C2 counterexample: an environment whose Plex lookup returns two shows for
the single releasing entry makes the found sequence longer than the matched
sequence, refuting len(found) == len(matched) for every input. -/
theorem c2_cex_two_shows :
    ¬ ((find_plex_show envPlexTwo [entC]).1.shows_found_in_plex.length =
        (find_plex_show envPlexTwo [entC]).1.show_media_entry_in_plex.length)
    := by
  decide

/-- C2 amended: for every input, len(matched) ≤ len(found): a non-empty Plex
result appends all its items to found but the entry only once to matched, so
the two lengths agree whenever every lookup returns at most one item (and can
differ otherwise). -/
theorem c2_found_vs_matched (env : Env) (entries : List MediaEntry) :
    (find_plex_show env entries).1.show_media_entry_in_plex.length ≤
      (find_plex_show env entries).1.shows_found_in_plex.length ∧
    ((∀ e, (env.plexFindAllByTitle e).length ≤ 1) →
      (find_plex_show env entries).1.shows_found_in_plex.length =
        (find_plex_show env entries).1.show_media_entry_in_plex.length) := by
  constructor
  · have h := find_plex_show_loop_le env entries [] [] [] [] (by simp)
    rw [find_plex_show]
    rcases hl : find_plex_show_loop env entries [] [] [] [] with
      ⟨fd, ms, mt, qr⟩
    rw [hl] at h
    simpa using h
  · intro hone
    have h := find_plex_show_loop_eq_len env entries [] [] [] [] hone
      (by simp)
    rw [find_plex_show]
    rcases hl : find_plex_show_loop env entries [] [] [] [] with
      ⟨fd, ms, mt, qr⟩
    rw [hl] at h
    simpa using h.symm

/-- Witness for C2 amended at a concrete input: baseEnv returns no show for
any entry, so both sequences for [entC] have the same length. -/
theorem c2_found_vs_matched_witness :
    (find_plex_show baseEnv [entC]).1.shows_found_in_plex.length =
      (find_plex_show baseEnv [entC]).1.show_media_entry_in_plex.length :=
  (c2_found_vs_matched baseEnv [entC]).2 (fun e => by simp [baseEnv])

/-- An entry that is not yet released, or that the user completed, is never
added to the missing, matched or queried accumulators by the Reconciler
loop. -/
theorem find_plex_show_loop_not_mem (env : Env) (entries : List MediaEntry)
    (found : List Show) (missing matched queried : List MediaEntry)
    (e : MediaEntry)
    (hst : e.media.status = "NOT_YET_RELEASED" ∨ e.status = "COMPLETED")
    (hm : e ∉ missing) (hmt : e ∉ matched) (hq : e ∉ queried) :
    e ∉ (find_plex_show_loop env entries found missing matched
        queried).2.1 ∧
    e ∉ (find_plex_show_loop env entries found missing matched
        queried).2.2.1 ∧
    e ∉ (find_plex_show_loop env entries found missing matched
        queried).2.2.2 := by
  induction entries generalizing found missing matched queried with
  | nil => exact ⟨by simpa [find_plex_show_loop] using hm,
      by simpa [find_plex_show_loop] using hmt,
      by simpa [find_plex_show_loop] using hq⟩
  | cons a rest ih =>
    rw [find_plex_show_loop]
    by_cases h1 : a.media.status != "NOT_YET_RELEASED"
    · by_cases h2 : a.status != "COMPLETED"
      · have hne : e ≠ a := by
          intro heq
          rcases hst with hs | hs
          · rw [heq] at hs
            rw [hs] at h1
            simp at h1
          · rw [heq] at hs
            rw [hs] at h2
            simp at h2
        simp only [h1, h2, if_pos]
        by_cases h3 : (env.plexFindAllByTitle a).isEmpty
        · simp only [h3, if_pos]
          refine ih found (missing ++ [a]) matched (queried ++ [a]) ?_ hmt ?_
          · simp [hm, hne]
          · simp [hq, hne]
        · simp only [h3, if_neg, Bool.not_eq_true]
          refine ih (found ++ env.plexFindAllByTitle a) missing
            (matched ++ [a]) (queried ++ [a]) hm ?_ ?_
          · simp [hmt, hne]
          · simp [hq, hne]
      · simp only [h1, h2, if_pos, if_neg, Bool.not_eq_true]
        exact ih found missing matched queried hm hmt hq
    · simp only [h1, if_neg, Bool.not_eq_true]
      exact ih found missing matched queried hm hmt hq

/-- The found accumulator of the Reconciler loop is exactly the concatenation
of the Plex results of the queried entries. -/
theorem find_plex_show_loop_found_eq (env : Env) (entries : List MediaEntry)
    (found : List Show) (missing matched queried : List MediaEntry)
    (h : found = queried.flatMap env.plexFindAllByTitle) :
    (find_plex_show_loop env entries found missing matched queried).1 =
      (find_plex_show_loop env entries found missing matched
        queried).2.2.2.flatMap env.plexFindAllByTitle := by
  induction entries generalizing found missing matched queried with
  | nil => simpa [find_plex_show_loop] using h
  | cons a rest ih =>
    rw [find_plex_show_loop]
    by_cases h1 : a.media.status != "NOT_YET_RELEASED"
    · by_cases h2 : a.status != "COMPLETED"
      · simp only [h1, h2, if_pos]
        by_cases h3 : (env.plexFindAllByTitle a).isEmpty
        · simp only [h3, if_pos]
          refine ih found (missing ++ [a]) matched (queried ++ [a]) ?_
          have hempty : env.plexFindAllByTitle a = [] := by
            rcases hm : env.plexFindAllByTitle a with _ | ⟨b, l⟩
            · rfl
            · rw [hm] at h3; simp at h3
          simp [h, hempty]
        · simp only [h3, if_neg, Bool.not_eq_true]
          refine ih (found ++ env.plexFindAllByTitle a) missing
            (matched ++ [a]) (queried ++ [a]) ?_
          simp [h]
      · simp only [h1, h2, if_pos, if_neg, Bool.not_eq_true]
        exact ih found missing matched queried h
    · simp only [h1, if_neg, Bool.not_eq_true]
      exact ih found missing matched queried h

/-- C7: an entry that is not yet released, or whose personal status is
COMPLETED, is never queried against Plex and lands in neither the missing nor
the matched sequence; moreover the found sequence consists exactly of the
Plex results of the entries that were queried, so no item of a skipped entry
reaches it. -/
theorem c7_status_skip (env : Env) (entries : List MediaEntry)
    (e : MediaEntry)
    (h : e.media.status = "NOT_YET_RELEASED" ∨ e.status = "COMPLETED") :
    e ∉ (find_plex_show env entries).1.shows_missing_in_plex ∧
    e ∉ (find_plex_show env entries).1.show_media_entry_in_plex ∧
    e ∉ (find_plex_show env entries).2 ∧
    (find_plex_show env entries).1.shows_found_in_plex =
      (find_plex_show env entries).2.flatMap env.plexFindAllByTitle := by
  have hmem := find_plex_show_loop_not_mem env entries [] [] [] [] e h
    (by simp) (by simp) (by simp)
  have hfound := find_plex_show_loop_found_eq env entries [] [] [] []
    (by simp)
  rw [find_plex_show]
  rcases hl : find_plex_show_loop env entries [] [] [] [] with
    ⟨fd, ms, mt, qr⟩
  rw [hl] at hmem hfound
  exact ⟨hmem.1, hmem.2.1, hmem.2.2, hfound⟩

/-- Witness for C7 at a concrete input: the not-yet-released entry is absent
from the missing sequence. -/
theorem c7_status_skip_witness :
    entNYR ∉ (find_plex_show baseEnv [entNYR]).1.shows_missing_in_plex :=
  (c7_status_skip baseEnv [entNYR] entNYR (Or.inl rfl)).1

/-! Claim theorems: the decision phase. -/

/-- The enqueue step only appends to the event trace. -/
theorem queue_events_ext (env : Env) (s : PState) (t : TorrentInfo) :
    ∃ tail, (queue_downloaded_torrent_file env s t).1.events =
      s.events ++ tail := by
  rcases hm : env.transmissionAddMagnet t.download_url with _ | b
  · exact ⟨[Event.addMagnet t.download_url],
      by simp [queue_downloaded_torrent_file, hm]⟩
  · cases b
    · exact ⟨[Event.addMagnet t.download_url],
        by simp [queue_downloaded_torrent_file, hm]⟩
    · exact ⟨[Event.addMagnet t.download_url, Event.upsert t.name],
        by simp [queue_downloaded_torrent_file, hm]⟩

/-- The move step only appends to the event trace. -/
theorem move_events_ext (env : Env) (s : PState) (t : TorrentInfo) :
    ∃ tail, (move_torrent_to_monitored_directory env s t).events =
      s.events ++ tail := by
  by_cases hc : env.storageCopyOrMove t
  · exact ⟨[Event.move t.name, Event.upsert t.name],
      by simp [move_torrent_to_monitored_directory, hc]⟩
  · exact ⟨[Event.move t.name, Event.logError],
      by simp [move_torrent_to_monitored_directory, hc]⟩

/-- The direct-download step only appends to the event trace. -/
theorem download_events_ext (env : Env) (s : PState) (t : TorrentInfo) :
    ∃ tail, (download_torrent_file env s t).1.events = s.events ++ tail := by
  rcases hd : env.nyaaDownload t with _ | b
  · exact ⟨[Event.logInfo, Event.download t.name],
      by simp [download_torrent_file, hd]⟩
  · cases b
    · exact ⟨[Event.logInfo, Event.download t.name, Event.logInfo],
        by simp [download_torrent_file, hd]⟩
    · by_cases hc : env.storageCopyOrMove t
      · exact ⟨[Event.logInfo, Event.download t.name, Event.upsert t.name,
          Event.logInfo, Event.move t.name, Event.upsert t.name],
          by simp [download_torrent_file, hd,
            move_torrent_to_monitored_directory, hc]⟩
      · exact ⟨[Event.logInfo, Event.download t.name, Event.upsert t.name,
          Event.logInfo, Event.move t.name, Event.logError],
          by simp [download_torrent_file, hd,
            move_torrent_to_monitored_directory, hc]⟩

/-- Processing one candidate only appends to the event trace. -/
theorem process_candidate_events_ext (env : Env) (s : PState)
    (t : TorrentInfo) :
    ∃ tail, (process_candidate env s t).1.events = s.events ++ tail := by
  cases hai : t.anime_info with
  | none => exact ⟨[Event.logInfo], by simp [process_candidate, hai]⟩
  | some a =>
    by_cases hlen : (find_downloadable_torrents s.store t).length < 1
    · rcases hm : env.transmissionAddMagnet t.download_url with _ | b
      · exact ⟨[Event.findRec t.name, Event.addMagnet t.download_url],
          by simp [process_candidate, hai, hlen,
            queue_downloaded_torrent_file, hm]⟩
      · cases b
        · obtain ⟨tail, htail⟩ := download_events_ext env
            { store := s.store,
              events := s.events ++ [Event.findRec t.name,
                Event.addMagnet t.download_url] }
            { t with is_queued := false }
          refine ⟨[Event.findRec t.name, Event.addMagnet t.download_url]
            ++ tail, ?_⟩
          rw [hai] at htail
          simp only [process_candidate, hai, hlen, if_pos,
            queue_downloaded_torrent_file, hm]
          simp only [List.append_assoc] at htail ⊢
          simpa using htail
        · exact ⟨[Event.findRec t.name, Event.addMagnet t.download_url,
            Event.upsert t.name],
            by simp [process_candidate, hai, hlen,
              queue_downloaded_torrent_file, hm]⟩
    · exact ⟨[Event.findRec t.name, Event.logInfo],
        by simp [process_candidate, hai, hlen]⟩

/-- Processing a list of candidates only appends to the event trace. -/
theorem process_candidates_events_ext (env : Env) (s : PState)
    (ts : List TorrentInfo) :
    ∃ tail, (process_candidates env s ts).1.events = s.events ++ tail := by
  induction ts generalizing s with
  | nil => exact ⟨[], by simp [process_candidates]⟩
  | cons t rest ih =>
    obtain ⟨tail1, ht1⟩ := process_candidate_events_ext env s t
    rcases hpc : process_candidate env s t with ⟨s1, r⟩
    rw [hpc] at ht1
    cases r with
    | none =>
      exact ⟨tail1, by simp [process_candidates, hpc]; exact ht1⟩
    | some u =>
      obtain ⟨tail2, ht2⟩ := ih s1
      refine ⟨tail1 ++ tail2, ?_⟩
      simp only [process_candidates, hpc]
      rw [ht2, ht1, List.append_assoc]

/-- A candidate whose name already has a record in the store is skipped: the
store is unchanged, no exception escapes, and only log (and lookup) events
are emitted. -/
theorem process_candidate_skip (env : Env) (s : PState) (t : TorrentInfo)
    (h : ∃ r ∈ s.store, r.name = t.name) :
    (process_candidate env s t).1.store = s.store ∧
    (process_candidate env s t).2 = some () ∧
    ((process_candidate env s t).1.events = s.events ++ [Event.logInfo] ∨
     (process_candidate env s t).1.events =
       s.events ++ [Event.findRec t.name, Event.logInfo]) := by
  have hlen : ¬ (find_downloadable_torrents s.store t).length < 1 := by
    have hp := (store_search_pos_iff s.store t.name).mpr h
    unfold find_downloadable_torrents
    omega
  cases hai : t.anime_info with
  | none =>
    refine ⟨?_, ?_, Or.inl ?_⟩ <;> simp [process_candidate, hai]
  | some a =>
    refine ⟨?_, ?_, Or.inr ?_⟩ <;> simp [process_candidate, hai, hlen]

/-- When every candidate of the list already has a record in the store, the
whole decision phase leaves the store unchanged, finishes normally and emits
no mutating event. -/
theorem process_candidates_skip_all (env : Env) (s : PState)
    (ts : List TorrentInfo)
    (h : ∀ t ∈ ts, ∃ r ∈ s.store, r.name = t.name) :
    (process_candidates env s ts).1.store = s.store ∧
    (process_candidates env s ts).2 = some () ∧
    ∃ tail, (process_candidates env s ts).1.events = s.events ++ tail ∧
      ∀ e ∈ tail, mutatingEvent e = false := by
  induction ts generalizing s with
  | nil => exact ⟨rfl, rfl, [], by simp [process_candidates], by simp⟩
  | cons t rest ih =>
    obtain ⟨hstore, hr, hev⟩ := process_candidate_skip env s t (h t (by simp))
    rcases hpc : process_candidate env s t with ⟨s1, r⟩
    rw [hpc] at hstore hr hev
    subst hr
    have hrest : ∀ t2 ∈ rest, ∃ r2 ∈ s1.store, r2.name = t2.name := by
      intro t2 ht2
      rw [hstore]
      exact h t2 (by simp [ht2])
    obtain ⟨h1, h2, tail2, htl2, hmut2⟩ := ih s1 hrest
    refine ⟨?_, ?_, ?_⟩
    · simp only [process_candidates, hpc]
      rw [h1, hstore]
    · simp only [process_candidates, hpc]
      exact h2
    · rcases hev with hev | hev
      · refine ⟨[Event.logInfo] ++ tail2, ?_, ?_⟩
        · simp only [process_candidates, hpc]
          rw [htl2, hev, List.append_assoc]
        · intro e he
          rcases List.mem_append.mp he with he | he
          · simp only [List.mem_singleton] at he
            subst he; rfl
          · exact hmut2 e he
      · refine ⟨[Event.findRec t.name, Event.logInfo] ++ tail2, ?_, ?_⟩
        · simp only [process_candidates, hpc]
          rw [htl2, hev, List.append_assoc]
        · intro e he
          rcases List.mem_append.mp he with he | he
          · rcases List.mem_cons.mp he with he | he
            · subst he; rfl
            · simp only [List.mem_singleton] at he
              subst he; rfl
          · exact hmut2 e he

/-- Whenever processing a candidate emits any mutating event, the first event
it emits is the store lookup of that candidate's name. -/
theorem process_candidate_lookup_first (env : Env) (s : PState)
    (t : TorrentInfo)
    (h : ∃ e ∈ (process_candidate env s t).1.events.drop s.events.length,
      mutatingEvent e = true) :
    ((process_candidate env s t).1.events.drop s.events.length).head? =
      some (Event.findRec t.name) := by
  cases hai : t.anime_info with
  | none =>
    exfalso
    simp [process_candidate, hai, List.drop_left, mutatingEvent] at h
  | some a =>
    by_cases hlen : (find_downloadable_torrents s.store t).length < 1
    · rcases hm : env.transmissionAddMagnet t.download_url with _ | b
      · simp [process_candidate, hai, hlen, queue_downloaded_torrent_file,
          hm, List.drop_left]
      · cases b
        · rcases hd : env.nyaaDownload { t with is_queued := false }
            with _ | b2
          all_goals rw [hai] at hd
          · simp [process_candidate, hai, hlen,
              queue_downloaded_torrent_file, hm, download_torrent_file, hd,
              List.drop_left]
          · cases b2
            · simp [process_candidate, hai, hlen,
                queue_downloaded_torrent_file, hm, download_torrent_file,
                hd, List.drop_left]
            · by_cases hc : env.storageCopyOrMove
                { t with is_queued := false }
              all_goals rw [hai] at hc
              · simp [process_candidate, hai, hlen,
                  queue_downloaded_torrent_file, hm, download_torrent_file,
                  hd, move_torrent_to_monitored_directory, hc,
                  List.drop_left]
              · simp [process_candidate, hai, hlen,
                  queue_downloaded_torrent_file, hm, download_torrent_file,
                  hd, move_torrent_to_monitored_directory, hc,
                  List.drop_left]
        · simp [process_candidate, hai, hlen,
            queue_downloaded_torrent_file, hm, List.drop_left]
    · exfalso
      simp [process_candidate, hai, hlen, List.drop_left, mutatingEvent]
        at h

/-- C1: a candidate whose name has at least one record in the store is
skipped with the store unchanged, no exception and no mutating action; a
whole decision phase over candidates that all have records performs zero
DownloadClient, download, FileMover or upsert invocations and keeps the
store intact; and whenever a candidate's processing performs any mutating
action at all, the store lookup of its name is the very first event it
emits. -/
theorem c1_dedup_guard :
    (∀ (env : Env) (s : PState) (t : TorrentInfo),
      (∃ r ∈ s.store, r.name = t.name) →
        (process_candidate env s t).1.store = s.store ∧
        (process_candidate env s t).2 = some () ∧
        ∀ e ∈ (process_candidate env s t).1.events.drop s.events.length,
          mutatingEvent e = false) ∧
    (∀ (env : Env) (s : PState) (ts : List TorrentInfo),
      (∀ t ∈ ts, ∃ r ∈ s.store, r.name = t.name) →
        (process_candidates env s ts).1.store = s.store ∧
        (process_candidates env s ts).2 = some () ∧
        ∀ e ∈ (process_candidates env s ts).1.events.drop s.events.length,
          mutatingEvent e = false) ∧
    (∀ (env : Env) (s : PState) (t : TorrentInfo),
      (∃ e ∈ (process_candidate env s t).1.events.drop s.events.length,
        mutatingEvent e = true) →
        ((process_candidate env s t).1.events.drop s.events.length).head? =
          some (Event.findRec t.name)) := by
  refine ⟨?_, ?_, process_candidate_lookup_first⟩
  · intro env s t h
    obtain ⟨h1, h2, hev⟩ := process_candidate_skip env s t h
    refine ⟨h1, h2, ?_⟩
    intro e he
    rcases hev with hev | hev <;> rw [hev, List.drop_left] at he
    · simp only [List.mem_singleton] at he
      subst he; rfl
    · rcases List.mem_cons.mp he with he | he
      · subst he; rfl
      · simp only [List.mem_singleton] at he
        subst he; rfl
  · intro env s ts h
    obtain ⟨h1, h2, tail, htl, hmut⟩ := process_candidates_skip_all env s ts h
    refine ⟨h1, h2, ?_⟩
    intro e he
    rw [htl, List.drop_left] at he
    exact hmut e he

/-- Witness for C1 at a concrete input: with the store already holding a
record named A, processing the search result [tA] changes nothing and
finishes normally. -/
theorem c1_dedup_guard_witness :
    (process_candidates baseEnv sA [tA]).1.store = sA.store ∧
    (process_candidates baseEnv sA [tA]).2 = some () := by
  have h := c1_dedup_guard.2.1 baseEnv sA [tA] (by decide)
  exact ⟨h.1, h.2.1⟩

/-- C3 counterexample: when the DownloadClient call raises on the first
candidate, the exception escapes the loop body (it is only caught at the
top-level boundary) and the second candidate is never processed: no lookup
and no enqueue for B appears in the trace. -/
theorem c3_cex_exception_aborts_rest :
    (process_candidates envMagnetRaise s0 [tA, tB]).2 = none ∧
    Event.findRec "B" ∉
      (process_candidates envMagnetRaise s0 [tA, tB]).1.events ∧
    Event.addMagnet "uB" ∉
      (process_candidates envMagnetRaise s0 [tA, tB]).1.events := by
  decide

/-- When no collaborator call raises, processing one candidate always
finishes normally, and a candidate carrying anime attributes always gets its
store lookup emitted. -/
theorem process_candidate_total (env : Env) (s : PState) (t : TorrentInfo)
    (hm : ∀ u, (env.transmissionAddMagnet u).isSome = true)
    (hd : ∀ t2, (env.nyaaDownload t2).isSome = true) :
    (process_candidate env s t).2 = some () ∧
    (t.anime_info.isSome = true →
      Event.findRec t.name ∈
        (process_candidate env s t).1.events.drop s.events.length) := by
  cases hai : t.anime_info with
  | none => simp [process_candidate, hai]
  | some a =>
    by_cases hlen : (find_downloadable_torrents s.store t).length < 1
    · rcases hmb : env.transmissionAddMagnet t.download_url with _ | b
      · have hmm := hm t.download_url
        rw [hmb] at hmm
        simp at hmm
      · cases b
        · rcases hopt : env.nyaaDownload { t with is_queued := false }
            with _ | b2
          · have hds := hd { t with is_queued := false }
            rw [hopt] at hds
            simp at hds
          · rw [hai] at hopt
            cases b2
            · simp [process_candidate, hai, hlen,
                queue_downloaded_torrent_file, hmb, download_torrent_file,
                hopt, List.drop_left]
            · by_cases hc : env.storageCopyOrMove
                { t with is_queued := false }
              all_goals rw [hai] at hc
              · simp [process_candidate, hai, hlen,
                  queue_downloaded_torrent_file, hmb, download_torrent_file,
                  hopt, move_torrent_to_monitored_directory, hc,
                  List.drop_left]
              · simp [process_candidate, hai, hlen,
                  queue_downloaded_torrent_file, hmb, download_torrent_file,
                  hopt, move_torrent_to_monitored_directory, hc,
                  List.drop_left]
        · simp [process_candidate, hai, hlen,
            queue_downloaded_torrent_file, hmb, List.drop_left]
    · simp [process_candidate, hai, hlen, List.drop_left]

/-- C3 amended: the decision phase is fail-soft against reported failures but
not against exceptions: when no collaborator call raises, the loop always
finishes normally and reaches every candidate (every candidate carrying anime
attributes gets its store lookup emitted) regardless of how many enqueues or
downloads report failure; an exception raised at a candidate, however, aborts
the remaining candidates and is only absorbed by the top-level boundary. -/
theorem c3_fail_soft (env : Env) (s : PState) (ts : List TorrentInfo)
    (hm : ∀ u, (env.transmissionAddMagnet u).isSome = true)
    (hd : ∀ t2, (env.nyaaDownload t2).isSome = true) :
    (process_candidates env s ts).2 = some () ∧
    ∀ t ∈ ts, t.anime_info.isSome = true →
      Event.findRec t.name ∈
        (process_candidates env s ts).1.events.drop s.events.length := by
  induction ts generalizing s with
  | nil => simp [process_candidates]
  | cons t rest ih =>
    obtain ⟨hr, hfind⟩ := process_candidate_total env s t hm hd
    obtain ⟨tail1, ht1⟩ := process_candidate_events_ext env s t
    rcases hpc : process_candidate env s t with ⟨s1, r⟩
    rw [hpc] at hr hfind ht1
    subst hr
    obtain ⟨h1, h2⟩ := ih s1
    obtain ⟨tail2, ht2⟩ := process_candidates_events_ext env s1 rest
    refine ⟨?_, ?_⟩
    · simp only [process_candidates, hpc]
      exact h1
    · intro t2 ht2mem hai2
      simp only [process_candidates, hpc]
      have ht1n : s1.events = s.events ++ tail1 := ht1
      have ht2n : (process_candidates env s1 rest).1.events =
          s1.events ++ tail2 := ht2
      rcases List.mem_cons.mp ht2mem with heq | hrest
      · subst heq
        have hmem : Event.findRec t2.name ∈
            s1.events.drop s.events.length := hfind hai2
        rw [ht1n, List.drop_left] at hmem
        rw [ht2n, ht1n, List.append_assoc, List.drop_left]
        exact List.mem_append_left _ hmem
      · have hmem := h2 t2 hrest hai2
        rw [ht2n, List.drop_left] at hmem
        rw [ht2n, ht1n, List.append_assoc, List.drop_left]
        exact List.mem_append_right _ hmem

/-- Witness for C3 amended at a concrete input: under baseEnv, where no call
raises, both candidates are processed and the loop finishes normally. -/
theorem c3_fail_soft_witness :
    (process_candidates baseEnv s0 [tA, tB]).2 = some () :=
  (c3_fail_soft baseEnv s0 [tA, tB] (fun _ => rfl) (fun _ => rfl)).1
